import Mathlib

/-!
Verification development for `sync.py` (mamba.TorchDiscordSync), a git
release-sync tool.  The definitions below are a shallow embedding of the
script's pure decision logic:

* the whitelist filter used when building a filtered zip archive
  (`create_backup`, type label `LOCAL_ZIP`),
* the destructive in-place whitelist application used during release
  flattening (`apply_whitelist`),
* the changelog section insertion (`generate_changelog`),
* version resolution (`get_project_version`),
* the sequence of gated git commands issued by the release orchestrator
  (`handle_master_sync`).

Python's `re.match` is modelled by a small regex engine covering exactly the
rule language the script's whitelist uses: literal characters, `.` (any
character except newline), a trailing `$` anchor, `*` on a single atom,
backslash escapes of non-alphanumeric characters, and top-level alternation
with `|`.  Patterns outside this fragment (or malformed ones, such as an
unbalanced `(`) make the parser return `none`; at match time this is
surfaced as an `Except.error`, mirroring the `re.error` exception Python
raises when compiling a malformed pattern.  `re.match` anchors at the start
of the string only; a match of the whole pattern against any prefix of the
string succeeds unless the pattern ends with `$`.
-/

/-- Atoms of the modelled regex fragment: a literal character or `.`. -/
inductive RAtom where
  | lit (c : Char)
  | dot
deriving DecidableEq

/-- A token is an atom together with a flag telling whether it is starred. -/
abbrev RTok := RAtom × Bool

/-- A branch of a top-level alternation: token list plus end-anchor flag. -/
abbrev RBranch := List RTok × Bool

/-- Split a pattern on top-level (unescaped) `|` characters. -/
def splitAlt : List Char → List (List Char)
  | [] => [[]]
  | '\\' :: c :: rest =>
    match splitAlt rest with
    | b :: bs => ('\\' :: c :: b) :: bs
    | [] => [['\\', c]]
  | '|' :: rest => [] :: splitAlt rest
  | c :: rest =>
    match splitAlt rest with
    | b :: bs => (c :: b) :: bs
    | [] => [[c]]

/-- Characters that start a regex construct outside the modelled fragment
(`(`/`)` and `[`/`]` and braces and `?`/`+`/`^`), or that are malformed in
this position (`*` with nothing to repeat, mid-pattern `$`, stray `|`).
A pattern containing one of these fails to parse. -/
def rBadChar (c : Char) : Bool :=
  c = '$' ∨ c = '*' ∨ c = '?' ∨ c = '+' ∨ c = '(' ∨ c = ')' ∨ c = '[' ∨
    c = ']' ∨ c = '\x7b' ∨ c = '\x7d' ∨ c = '^' ∨ c = '|'

/-- Parse one alternation branch into tokens plus an end-anchor flag. -/
def parseSeq : List Char → Option (List RTok × Bool)
  | [] => some ([], false)
  | ['$'] => some ([], true)
  | ['\\'] => none
  | '\\' :: c :: '*' :: rest =>
    if c.isAlphanum then none
    else
      match parseSeq rest with
      | some (ts, a) => some ((RAtom.lit c, true) :: ts, a)
      | none => none
  | '\\' :: c :: rest =>
    if c.isAlphanum then none
    else
      match parseSeq rest with
      | some (ts, a) => some ((RAtom.lit c, false) :: ts, a)
      | none => none
  | c :: '*' :: rest =>
    if rBadChar c then none
    else
      match parseSeq rest with
      | some (ts, a) => some (((if c = '.' then RAtom.dot else RAtom.lit c), true) :: ts, a)
      | none => none
  | c :: rest =>
    if rBadChar c then none
    else
      match parseSeq rest with
      | some (ts, a) => some (((if c = '.' then RAtom.dot else RAtom.lit c), false) :: ts, a)
      | none => none

/-- Parse every branch of an alternation. -/
def parseAlts : List (List Char) → Option (List RBranch)
  | [] => some []
  | b :: bs =>
    match parseSeq b, parseAlts bs with
    | some x, some xs => some (x :: xs)
    | _, _ => none

/-- Parse a whole pattern; `none` models `re.error` / an unmodelled construct. -/
def parseRE (pat : String) : Option (List RBranch) :=
  parseAlts (splitAlt pat.data)

/-- Does an atom match one character?  `.` matches anything but newline. -/
def atomMatch : RAtom → Char → Bool
  | RAtom.lit c, d => c == d
  | RAtom.dot, d => !(d == '\n')

/-- Match a token list against a character list, anchored at the start.
If `anch` is true the whole string must be consumed (trailing `$`),
otherwise matching a prefix suffices, exactly as for `re.match`.
The `Nat` argument is fuel; every recursive call decreases
`s.length + ts.length` by at least one, so with the fuel chosen in
`matchToks` below the `0` branch is unreachable. -/
def matchToksF : Nat → List RTok → Bool → List Char → Bool
  | 0, _, _, _ => false
  | _ + 1, [], anch, s => !anch || s.isEmpty
  | k + 1, t :: ts, anch, s =>
    if t.2 then
      matchToksF k ts anch s ||
        (match s with
         | [] => false
         | c :: cs => atomMatch t.1 c && matchToksF k (t :: ts) anch cs)
    else
      match s with
      | [] => false
      | c :: cs => atomMatch t.1 c && matchToksF k ts anch cs

/-- Backtracking matcher with sufficient fuel. -/
def matchToks (ts : List RTok) (anch : Bool) (s : List Char) : Bool :=
  matchToksF (s.length + ts.length + 1) ts anch s

/-- Match a parsed pattern (alternation of branches) against a string. -/
def reMatchesP (br : List RBranch) (s : List Char) : Bool :=
  br.any (fun b => matchToks b.1 b.2 s)

/-- Model of `re.match(pat, s)`: error on a malformed pattern, otherwise
a boolean saying whether the pattern matches at the start of `s`. -/
def reMatch (pat s : String) : Except Unit Bool :=
  match parseRE pat with
  | none => Except.error ()
  | some br => Except.ok (reMatchesP br s.data)

/-- Total boolean version of `reMatch` (malformed patterns match nothing);
used to state theorems about runs in which no pattern error occurs. -/
def reMatchB (pat s : String) : Bool :=
  match parseRE pat with
  | none => false
  | some br => reMatchesP br s.data

deriving instance DecidableEq for Except

/-! ## String helpers (modelled on the Python string operations used) -/

/-- Boolean test: is `pat` an initial segment of `l`? -/
def isPre : List Char → List Char → Bool
  | [], _ => true
  | _ :: _, [] => false
  | a :: as, b :: bs => a == b && isPre as bs

/-- Boolean test: does `pat` occur contiguously anywhere in `l`?
Models Python's `pat in s` substring test. -/
def isInfixL (pat : List Char) : List Char → Bool
  | [] => pat.isEmpty
  | c :: cs => isPre pat (c :: cs) || isInfixL pat cs

/-- Python `pat in s` on strings. -/
def containsSub (s pat : String) : Bool :=
  isInfixL pat.data s.data

/-- Replace every leftmost non-overlapping occurrence of `p :: ps` in the
list by `r`; models Python's `str.replace` (which replaces all
occurrences).  The `Nat` is fuel: every recursive call shortens the list,
so any fuel at least the list's length makes the middle branch
unreachable. -/
def replaceAuxF (p : Char) (ps r : List Char) : Nat → List Char → List Char
  | _, [] => []
  | 0, l => l
  | k + 1, c :: cs =>
    if isPre (p :: ps) (c :: cs) then r ++ replaceAuxF p ps r k (cs.drop ps.length)
    else c :: replaceAuxF p ps r k cs

/-- Python `s.replace(pat, repl)`; with an empty pattern the Python call
inserts `repl` everywhere, a case the script never exercises, so it is
mapped to the identity. -/
def pyReplace (s pat repl : String) : String :=
  match pat.data with
  | [] => s
  | p :: ps => ⟨replaceAuxF p ps repl.data s.data.length s.data⟩

/-- Count the leftmost non-overlapping occurrences of `p :: ps` in a list
(same fuel discipline as `replaceAuxF`). -/
def countAuxF (p : Char) (ps : List Char) : Nat → List Char → Nat
  | _, [] => 0
  | 0, _ => 0
  | k + 1, c :: cs =>
    if isPre (p :: ps) (c :: cs) then countAuxF p ps k (cs.drop ps.length) + 1
    else countAuxF p ps k cs

/-- Number of occurrences of the non-empty string `pat` in `s`. -/
def countOcc (s pat : String) : Nat :=
  match pat.data with
  | [] => 0
  | p :: ps => countAuxF p ps s.data.length s.data

/-- Whitespace as stripped by Python's `str.strip()` (ASCII fragment). -/
def isWS (c : Char) : Bool :=
  c == ' ' || c == '\t' || c == '\n' || c == '\r'

/-- Python `s.strip()`. -/
def pyStrip (s : String) : String :=
  ⟨((s.data.dropWhile isWS).reverse.dropWhile isWS).reverse⟩

/-- Python `rel_path.replace('\\', '/')` — normalize separators. -/
def pyNormSlash (s : String) : String :=
  ⟨s.data.map (fun c => if c = '\\' then '/' else c)⟩

/-- Python `p.endswith("/")`. -/
def endsWithSlash (p : String) : Bool :=
  match p.data.getLast? with
  | some c => c == '/'
  | none => false

/-- Python `s.startswith(pre)`. -/
def startsWithStr (s pre : String) : Bool :=
  isPre pre.data s.data

/-- Python `p[:-1]`. -/
def dropLastStr (p : String) : String :=
  ⟨p.data.dropLast⟩

/-- String concatenation, kept in constructor form so that `.data` of a
concatenation reduces definitionally to `++` of the underlying lists. -/
def sAppend (a b : String) : String :=
  ⟨a.data ++ b.data⟩

/-- Split a character list into the segments between `/` separators. -/
def splitSeg : List Char → List (List Char)
  | [] => [[]]
  | '/' :: rest => [] :: splitSeg rest
  | c :: rest =>
    match splitSeg rest with
    | b :: bs => (c :: b) :: bs
    | [] => [[c]]

/-- The specification's notion of a version-control metadata directory
segment: modelled from the spec's words, a `.git` path component of the
normalized path — to be compared with the substring test the code uses. -/
def hasDotGitSegment (path : String) : Bool :=
  (splitSeg (pyNormSlash path).data).any (fun seg => seg == ".git".data)

/-! ## Whitelist filter of `create_backup` (sync.py lines 166-184)

Per walked file the script computes `rel_path` and the bare filename
`file`; in `LOCAL_ZIP` mode it normalizes the path, skips any path with
`'.git' in match_path` (a substring test), and then scans the rule list:
`(pattern.endswith("/") and match_path.startswith(pattern)) or
re.match(pattern, file)`, stopping at the first matching rule.  Python's
`or` short-circuits, so the regex is not compiled when the directory-prefix
test already succeeded, and the scan stops before later rules. -/

/-- One rule test of the archive filter, with `pattern = p.strip()`:
directory-prefix on the normalized path, otherwise regex on the filename. -/
def ruleMatchesBackup (p matchPath file : String) : Except Unit Bool :=
  let pattern := pyStrip p
  if endsWithSlash pattern && startsWithStr matchPath pattern then Except.ok true
  else reMatch pattern file

/-- Total boolean version of `ruleMatchesBackup` (coincides with it whenever
the stripped rule parses). -/
def ruleMatchB (p matchPath file : String) : Bool :=
  let pattern := pyStrip p
  (endsWithSlash pattern && startsWithStr matchPath pattern) || reMatchB pattern file

/-- The rule scan: first matching rule wins; a malformed regex reached by
the scan raises (models the uncaught `re.error` inside the loop). -/
def anyRuleMatches : List String → String → String → Except Unit Bool
  | [], _, _ => Except.ok false
  | p :: ps, matchPath, file =>
    match ruleMatchesBackup p matchPath file with
    | Except.error e => Except.error e
    | Except.ok true => Except.ok true
    | Except.ok false => anyRuleMatches ps matchPath file

/-- The whitelist filter applied to one file in `LOCAL_ZIP` mode: paths
containing `".git"` as a substring are dropped before the rule scan. -/
def backupFileFilter (rules : List String) (relPath file : String) : Except Unit Bool :=
  let matchPath := pyNormSlash relPath
  if containsSub matchPath ".git" then Except.ok false
  else anyRuleMatches rules matchPath file

/-- A file met by `os.walk`: bare name, path relative to the root, and
whether reading it for the archive succeeds (false models an I/O or
permission error raised by `zipf.write`). -/
structure WalkFile where
  file : String
  relPath : String
  readable : Bool
deriving DecidableEq

/-- Processing of one file inside the `try` block of `create_backup`:
`Except.ok none` = skipped, `Except.ok (some rel)` = written to the archive,
`Except.error ()` = an exception escapes to the `except` handler. -/
def writeStep (typeLabel name : String) (rules : List String) (wf : WalkFile) : Except Unit (Option String) :=
  if wf.file = name then Except.ok none
  else if typeLabel = "LOCAL_ZIP" then
    match backupFileFilter rules wf.relPath wf.file with
    | Except.error e => Except.error e
    | Except.ok false => Except.ok none
    | Except.ok true => if wf.readable then Except.ok (some wf.relPath) else Except.error ()
  else if wf.readable then Except.ok (some wf.relPath) else Except.error ()

/-- Walk the file list in order; stop at the first exception.  Returns the
entries written to the archive so far and whether an exception occurred. -/
def runFiles (typeLabel name : String) (rules : List String) : List WalkFile → List String × Bool
  | [] => ([], false)
  | wf :: rest =>
    match writeStep typeLabel name rules wf with
    | Except.error _ => ([], true)
    | Except.ok none => runFiles typeLabel name rules rest
    | Except.ok (some e) =>
      match runFiles typeLabel name rules rest with
      | (l, b) => (e :: l, b)
  
/-- The archive entry a file contributes when its processing raises no
exception (`none` = skipped). -/
def includedEntry (typeLabel name : String) (rules : List String) (wf : WalkFile) : Option String :=
  match writeStep typeLabel name rules wf with
  | Except.ok o => o
  | Except.error _ => none

/-- Outcome of `create_backup`: entries written, whether the `except`
handler fired (logged as `Archive FAILED`, never re-raised), and the file
left at the destination path.  The script performs no cleanup, so the
destination always holds exactly the entries written before the stop; the
`with` block finalizes the zip even when a write raised. -/
structure BackupResult where
  written : List String
  failed : Bool
  leftover : Option (List String)
deriving DecidableEq

/-- Model of `create_backup` (sync.py lines 154-184), restricted to the
zip-construction loop; `typeLabel` selects filtered (`LOCAL_ZIP`) or
unfiltered behaviour and `name` is the archive's own file name. -/
def create_backup (typeLabel name : String) (rules : List String) (files : List WalkFile) : BackupResult :=
  match runFiles typeLabel name rules files with
  | (written, failed) => { written := written, failed := failed, leftover := some written }

/-- The `__main__` dispatch for `--full-backup` / `--zip`: `create_backup`
is called, its result ignored, and the process falls through to a normal
exit; the exit code is 0 whatever the archive outcome. -/
def backup_cli (typeLabel name : String) (rules : List String) (files : List WalkFile) : BackupResult × Nat :=
  (create_backup typeLabel name rules files, 0)

/-! ## `apply_whitelist` (sync.py lines 203-212)

Iterates over `os.listdir(".")` — top-level entries only.  `".git"`,
`"sync.py"` and `"config_sync.ini"` are skipped unconditionally; any other
entry is kept iff some rule matches under
`(p.endswith("/") and item == p[:-1]) or re.match(p, item)`
(no stripping here), and otherwise the whole entry is deleted
(`shutil.rmtree` for directories, `os.remove` for files). -/

/-- A top-level working-tree entry; a directory carries its (unexamined)
contents. -/
inductive FsEntry where
  | file (name : String)
  | dir (name : String) (children : List String)
deriving DecidableEq

/-- Name of an entry as `os.listdir` reports it. -/
def ename : FsEntry → String
  | FsEntry.file n => n
  | FsEntry.dir n _ => n

/-- The unconditional skip of line 205. -/
def protectedEntry (item : String) : Bool :=
  item == ".git" || item == "sync.py" || item == "config_sync.ini"

/-- The rule scan of `apply_whitelist` (first match wins; a malformed
regex reached by the scan raises an uncaught `re.error`). -/
def anyWLMatches : List String → String → Except Unit Bool
  | [], _ => Except.ok false
  | p :: ps, item =>
    if endsWithSlash p && (item == dropLastStr p) then Except.ok true
    else
      match reMatch p item with
      | Except.error e => Except.error e
      | Except.ok true => Except.ok true
      | Except.ok false => anyWLMatches ps item

/-- Total boolean version of the `apply_whitelist` rule test. -/
def wlAllowedB (rules : List String) (item : String) : Bool :=
  rules.any (fun p => (endsWithSlash p && (item == dropLastStr p)) || reMatchB p item)

/-- Model of `apply_whitelist`: returns the surviving entries in order and
a flag marking that an uncaught `re.error` aborted the loop (in which case
the entry under examination and all later entries are left untouched). -/
def apply_whitelist (rules : List String) : List FsEntry → List FsEntry × Bool
  | [] => ([], false)
  | e :: es =>
    if protectedEntry (ename e) then
      match apply_whitelist rules es with
      | (l, b) => (e :: l, b)
    else
      match anyWLMatches rules (ename e) with
      | Except.error _ => (e :: es, true)
      | Except.ok true =>
        match apply_whitelist rules es with
        | (l, b) => (e :: l, b)
      | Except.ok false => apply_whitelist rules es

/-! ## `generate_changelog` (sync.py lines 186-198)

The commit list and the date come from external commands; they are
parameters here.  The document update is:
`entry = "## [v] - date\ncommits\n\n"`; the content is the existing file or
`"# Changelog\n\n"`; if `"## [v]"` already occurs in the content nothing is
written, otherwise the file is rewritten as
`content.replace("# Changelog\n\n", "# Changelog\n\n" + entry)` — note that
Python's `str.replace` replaces every occurrence of the title block. -/

/-- The canonical title block the insertion keys on. -/
def titleBlock : String := "# Changelog\n\n"

/-- The section header `## [version]` used for the idempotence test. -/
def clHeader (version : String) : String :=
  sAppend (sAppend "## [" version) "]"

/-- The inserted section: header, date, commit bullets, blank separator. -/
def clEntry (version date commits : String) : String :=
  sAppend (clHeader version)
    (sAppend " - " (sAppend date (sAppend "\n" (sAppend commits "\n\n"))))

/-- Model of `generate_changelog`'s document update: `doc = none` means the
changelog file does not exist. -/
def generate_changelog (version date commits : String) (doc : Option String) : String :=
  let content := match doc with
    | some c => c
    | none => titleBlock
  if containsSub content (clHeader version) then content
  else pyReplace content titleBlock (sAppend titleBlock (clEntry version date commits))

/-! ## `get_project_version` (sync.py lines 99-120)

`manifestNode` is the raw text of the `<Version>` node when the manifest
file exists, parses, contains the node and the node has text; `none`
collapses every failure case (missing file, parse exception, missing node,
`None` text — the last raises inside the `try` and is swallowed by
`except: pass`).  The interactive prompt is skipped (`auto_yes`).  The
second component is the value persisted into `DefaultVersion`. -/

/-- Model of `get_project_version(auto_yes=True)`: returns
`(returned version, persisted stored default)`. -/
def get_project_version (manifestNode : Option String) (storedDefault : String) : String × String :=
  let current_ver : Option String := match manifestNode with
    | some t => some (pyStrip t)
    | none => none
  let ver := match current_ver with
    | none => storedDefault
    | some s => if s = "" then storedDefault else s
  (ver, ver)

/-! ## `handle_master_sync` (sync.py lines 214-265)

The model records, in source order, the commands issued through
`check_run` (each of which gates the next step).  Best-effort
`subprocess.run` calls (`git status --porcelain`, `git describe`/`git log`
inside `generate_changelog`, the two `git branch -D temp_release_work`, the
`gh release delete`) and the file operations (changelog/readme rewrite,
`create_backup`, `apply_whitelist`) issue no gated command and are not part
of the trace.  `metaDirty` and `backDirty` are the outcomes of the two
`git status --porcelain` probes; `currOnRelease` tells whether
`verify_env` found the release branch checked out.  The source's tag
command quotes the message with single quotes. -/

/-- The six gated commands of the incremental (`--update`) push phase,
lines 242-247: checkout release, pull, overlay the filtered tree from the
temporary branch, stage, commit with `--allow-empty`, push. -/
def update_push_seq (version relRemote relBranch : String) : List String :=
  ["git checkout " ++ relBranch,
   "git pull " ++ relRemote ++ " " ++ relBranch,
   "git checkout temp_release_work -- .",
   "git add -A",
   "git commit -m \"Update v" ++ version ++ "\" --allow-empty",
   "git push " ++ relRemote ++ " " ++ relBranch]

/-- Gated-command trace of `handle_master_sync`. -/
def handle_master_sync (version devBranch relBranch relRemote devRemote manifestPath changelogPath readmePath : String)
    (is_deploy currOnRelease metaDirty backDirty : Bool) : List String :=
  (if currOnRelease then ["git checkout " ++ devBranch] else [])
  ++ ["git add " ++ changelogPath ++ " " ++ readmePath]
  ++ (if metaDirty then ["git commit -m \"v" ++ version ++ " | Metadata update\""] else [])
  ++ ["git checkout --orphan temp_release_work " ++ devBranch]
  ++ ["git add -A"]
  ++ ["git commit -m \"Release v" ++ version ++ "\" --allow-empty"]
  ++ (if is_deploy then
        ["git push " ++ relRemote ++ " temp_release_work:" ++ relBranch ++ " --force"]
      else update_push_seq version relRemote relBranch)
  ++ ["git tag -a v" ++ version ++ " -m \"v" ++ version ++ "\""]
  ++ ["git push " ++ relRemote ++ " v" ++ version]
  ++ (if is_deploy then ["gh release create v" ++ version] else [])
  ++ ["git checkout " ++ devBranch ++ " -f"]
  ++ ["git checkout v" ++ version ++ " -- " ++ manifestPath ++ " " ++ changelogPath ++ " " ++ readmePath]
  ++ (if backDirty then
        ["git commit -m \"v" ++ version ++ " | Sync metadata back from release\"",
         "git push " ++ devRemote ++ " " ++ devBranch]
      else [])

/-! ## Generic lemmas about the list-level string operations -/

theorem strEta (s : String) : (⟨s.data⟩ : String) = s := by
  cases s
  rfl

theorem isPre_append (q l b : List Char) (h : isPre q l = true) : isPre q (l ++ b) = true := by
  induction q generalizing l with
  | nil => simp [isPre]
  | cons a as ih =>
    cases l with
    | nil => simp [isPre] at h
    | cons x xs =>
      simp only [isPre, List.cons_append, Bool.and_eq_true] at h ⊢
      exact ⟨h.1, ih xs h.2⟩

theorem isPre_self_append (q b : List Char) : isPre q (q ++ b) = true := by
  induction q with
  | nil => simp [isPre]
  | cons a as ih => simp [isPre, ih]

theorem isInfixL_of_isPre (q l : List Char) (h : isPre q l = true) : isInfixL q l = true := by
  cases l with
  | nil =>
    cases q with
    | nil => simp [isInfixL]
    | cons a as => simp [isPre] at h
  | cons c cs => simp [isInfixL, h]

theorem isInfixL_nil_pat (l : List Char) : isInfixL [] l = true := by
  cases l <;> simp [isInfixL, isPre]

theorem isInfixL_append_left (q a b : List Char) (h : isInfixL q a = true) :
    isInfixL q (a ++ b) = true := by
  induction a with
  | nil =>
    cases q with
    | nil => simpa using isInfixL_nil_pat b
    | cons x xs => simp [isInfixL] at h
  | cons c cs ih =>
    simp only [isInfixL, Bool.or_eq_true, List.cons_append] at h ⊢
    rcases h with h | h
    · exact Or.inl (isPre_append _ _ _ h)
    · exact Or.inr (ih h)

theorem isInfixL_append_right (q a b : List Char) (h : isInfixL q b = true) :
    isInfixL q (a ++ b) = true := by
  induction a with
  | nil => simpa using h
  | cons c cs ih =>
    simp only [isInfixL, Bool.or_eq_true, List.cons_append]
    exact Or.inr (by simpa using ih)

theorem replaceAuxF_no_occ (p : Char) (ps r : List Char) (k : Nat) (l : List Char)
    (hk : l.length ≤ k) (h : isInfixL (p :: ps) l = false) :
    replaceAuxF p ps r k l = l := by
  induction k generalizing l with
  | zero =>
    cases l with
    | nil => rfl
    | cons c cs => simp at hk
  | succ k ih =>
    cases l with
    | nil => rfl
    | cons c cs =>
      simp only [isInfixL, Bool.or_eq_false_iff] at h
      simp only [replaceAuxF, h.1, Bool.false_eq_true, if_false]
      have : cs.length ≤ k := by simpa using hk
      rw [ih cs this h.2]

theorem replaceAuxF_infix_repl (p : Char) (ps r : List Char) (k : Nat) (l q : List Char)
    (hk : l.length ≤ k) (h : isInfixL (p :: ps) l = true) (hq : isInfixL q r = true) :
    isInfixL q (replaceAuxF p ps r k l) = true := by
  induction k generalizing l with
  | zero =>
    cases l with
    | nil => simp [isInfixL] at h
    | cons c cs => simp at hk
  | succ k ih =>
    cases l with
    | nil => simp [isInfixL] at h
    | cons c cs =>
      cases hp : isPre (p :: ps) (c :: cs) with
      | true =>
        simp only [replaceAuxF, hp, if_true]
        exact isInfixL_append_left _ _ _ hq
      | false =>
        simp only [replaceAuxF, hp, Bool.false_eq_true, if_false]
        simp only [isInfixL, hp, Bool.false_or] at h
        have hlen : cs.length ≤ k := by simpa using hk
        simp only [isInfixL, Bool.or_eq_true]
        exact Or.inr (ih cs hlen h)

theorem replaceAuxF_insert (p : Char) (ps r rest : List Char) (k : Nat)
    (hk : ps.length + rest.length + 1 ≤ k) (h : isInfixL (p :: ps) rest = false) :
    replaceAuxF p ps r k ((p :: ps) ++ rest) = r ++ rest := by
  cases k with
  | zero => omega
  | succ k =>
    have hpre : isPre (p :: ps) (p :: (ps ++ rest)) = true := isPre_self_append (p :: ps) rest
    show replaceAuxF p ps r (k + 1) (p :: (ps ++ rest)) = r ++ rest
    simp only [replaceAuxF, hpre, if_true]
    rw [List.drop_left]
    rw [replaceAuxF_no_occ p ps r k rest (by omega) h]

theorem titleBlock_chars :
    titleBlock.data = '#' :: [' ', 'C', 'h', 'a', 'n', 'g', 'e', 'l', 'o', 'g', '\n', '\n'] := rfl

theorem pyReplace_title (s repl : String) :
    pyReplace s titleBlock repl
      = ⟨replaceAuxF '#' [' ', 'C', 'h', 'a', 'n', 'g', 'e', 'l', 'o', 'g', '\n', '\n']
          repl.data s.data.length s.data⟩ := rfl

theorem clHeader_not_in_title (v : String) : containsSub titleBlock (clHeader v) = false := rfl

theorem clHeader_isPre_clEntry (v d c : String) :
    isPre (clHeader v).data (clEntry v d c).data = true :=
  isPre_self_append (clHeader v).data
    (sAppend " - " (sAppend d (sAppend "\n" (sAppend c "\n\n")))).data

theorem gc_present (v d c doc : String) (h : containsSub doc (clHeader v) = true) :
    generate_changelog v d c (some doc) = doc := by
  simp [generate_changelog, h]

theorem gc_no_title (v d c doc : String) (hT : containsSub doc titleBlock = false) :
    generate_changelog v d c (some doc) = doc := by
  cases hH : containsSub doc (clHeader v) with
  | true => simp [generate_changelog, hH]
  | false =>
    simp only [generate_changelog, hH, Bool.false_eq_true, if_false]
    rw [pyReplace_title]
    rw [replaceAuxF_no_occ _ _ _ _ _ (le_refl _) hT]

theorem gc_inserted_has_header (v d c doc : String) (hT : containsSub doc titleBlock = true) :
    containsSub (generate_changelog v d c (some doc)) (clHeader v) = true := by
  cases hH : containsSub doc (clHeader v) with
  | true => rw [gc_present v d c doc hH]; exact hH
  | false =>
    simp only [generate_changelog, hH, Bool.false_eq_true, if_false]
    rw [pyReplace_title]
    show isInfixL (clHeader v).data _ = true
    apply replaceAuxF_infix_repl _ _ _ _ _ _ (le_refl _) hT
    exact isInfixL_append_right _ titleBlock.data _
      (isInfixL_of_isPre _ _ (clHeader_isPre_clEntry v d c))

theorem gc_idem_some (v d c d' c' x : String) :
    generate_changelog v d' c' (some (generate_changelog v d c (some x)))
      = generate_changelog v d c (some x) := by
  cases hH : containsSub x (clHeader v) with
  | true => rw [gc_present v d c x hH, gc_present v d' c' x hH]
  | false =>
    cases hT : containsSub x titleBlock with
    | false => rw [gc_no_title v d c x hT, gc_no_title v d' c' x hT]
    | true => exact gc_present v d' c' _ (gc_inserted_has_header v d c x hT)

/-- Second call with the same version is a no-op, any document, any date
and commit list. -/
theorem generate_changelog_idem (v d c d' c' : String) (doc : Option String) :
    generate_changelog v d' c' (some (generate_changelog v d c doc))
      = generate_changelog v d c doc := by
  cases doc with
  | some x => exact gc_idem_some v d c d' c' x
  | none =>
    show generate_changelog v d' c' (some (generate_changelog v d c (some titleBlock)))
      = generate_changelog v d c (some titleBlock)
    exact gc_idem_some v d c d' c' titleBlock

theorem gc_insert (v d c rest : String) (hrest : containsSub rest titleBlock = false)
    (hhdr : containsSub (sAppend titleBlock rest) (clHeader v) = false) :
    generate_changelog v d c (some (sAppend titleBlock rest))
      = sAppend titleBlock (sAppend (clEntry v d c) rest) := by
  simp only [generate_changelog, hhdr, Bool.false_eq_true, if_false]
  rw [pyReplace_title]
  show (⟨replaceAuxF '#' [' ', 'C', 'h', 'a', 'n', 'g', 'e', 'l', 'o', 'g', '\n', '\n']
      (sAppend titleBlock (clEntry v d c)).data (sAppend titleBlock rest).data.length
      (('#' :: [' ', 'C', 'h', 'a', 'n', 'g', 'e', 'l', 'o', 'g', '\n', '\n']) ++ rest.data)⟩ : String)
    = ⟨titleBlock.data ++ ((clEntry v d c).data ++ rest.data)⟩
  rw [replaceAuxF_insert _ _ _ _ _ ?hk hrest]
  · show (⟨(titleBlock.data ++ (clEntry v d c).data) ++ rest.data⟩ : String) = _
    rw [List.append_assoc]
  case hk =>
    show 12 + rest.data.length + 1 ≤ (titleBlock.data ++ rest.data).length
    rw [List.length_append, titleBlock_chars]
    simp
    omega

theorem gc_create (v d c : String) :
    generate_changelog v d c none = sAppend titleBlock (clEntry v d c) := by
  show (⟨(sAppend titleBlock (clEntry v d c)).data ++ []⟩ : String)
      = sAppend titleBlock (clEntry v d c)
  rw [List.append_nil]

/-! ## Lemmas on the whitelist rule scans and the archive walk -/

theorem reMatch_of_parse (pat s : String) (h : (parseRE pat).isSome) :
    reMatch pat s = Except.ok (reMatchB pat s) := by
  cases hp : parseRE pat with
  | none => rw [hp] at h; simp at h
  | some br => simp [reMatch, reMatchB, hp]

theorem anyWLMatches_of_parse (rules : List String) (item : String)
    (h : ∀ p ∈ rules, (parseRE p).isSome) :
    anyWLMatches rules item = Except.ok (wlAllowedB rules item) := by
  induction rules with
  | nil => simp [anyWLMatches, wlAllowedB]
  | cons p ps ih =>
    have hp : (parseRE p).isSome := h p (List.mem_cons_self p ps)
    have hps : ∀ q ∈ ps, (parseRE q).isSome := fun q hq => h q (List.mem_cons_of_mem p hq)
    simp only [anyWLMatches, wlAllowedB, List.any_cons]
    cases hd : (endsWithSlash p && (item == dropLastStr p)) with
    | true => simp [hd]
    | false =>
      simp only [hd, Bool.false_eq_true, if_false, reMatch_of_parse _ _ hp, Bool.false_or]
      cases hb : reMatchB p item with
      | true => simp
      | false => simpa [wlAllowedB] using ih hps

theorem ruleMatchesBackup_of_parse (p mp f : String) (h : (parseRE (pyStrip p)).isSome) :
    ruleMatchesBackup p mp f = Except.ok (ruleMatchB p mp f) := by
  simp only [ruleMatchesBackup, ruleMatchB]
  cases hd : (endsWithSlash (pyStrip p) && startsWithStr mp (pyStrip p)) with
  | true => simp [hd]
  | false => simp [hd, reMatch_of_parse _ _ h]

theorem anyRuleMatches_of_parse (rules : List String) (mp f : String)
    (h : ∀ p ∈ rules, (parseRE (pyStrip p)).isSome) :
    anyRuleMatches rules mp f = Except.ok (rules.any (fun p => ruleMatchB p mp f)) := by
  induction rules with
  | nil => simp [anyRuleMatches]
  | cons p ps ih =>
    have hp : (parseRE (pyStrip p)).isSome := h p (List.mem_cons_self p ps)
    have hps : ∀ q ∈ ps, (parseRE (pyStrip q)).isSome := fun q hq => h q (List.mem_cons_of_mem p hq)
    simp only [anyRuleMatches, ruleMatchesBackup_of_parse p mp f hp, List.any_cons]
    cases hb : ruleMatchB p mp f with
    | true => simp
    | false => simp [ih hps]

theorem backupFileFilter_of_parse (rules : List String) (rp f : String)
    (hg : containsSub (pyNormSlash rp) ".git" = false)
    (h : ∀ p ∈ rules, (parseRE (pyStrip p)).isSome) :
    backupFileFilter rules rp f
      = Except.ok (rules.any (fun p => ruleMatchB p (pyNormSlash rp) f)) := by
  simp only [backupFileFilter, hg, Bool.false_eq_true, if_false]
  exact anyRuleMatches_of_parse rules (pyNormSlash rp) f h

/-! apply_whitelist lemmas -/

theorem apply_whitelist_of_parse (rules : List String) (entries : List FsEntry)
    (h : ∀ p ∈ rules, (parseRE p).isSome) :
    apply_whitelist rules entries
      = (entries.filter (fun e => protectedEntry (ename e) || wlAllowedB rules (ename e)), false) := by
  induction entries with
  | nil => simp [apply_whitelist]
  | cons e es ih =>
    cases hpr : protectedEntry (ename e) with
    | true =>
      simp [apply_whitelist, hpr, ih, List.filter_cons]
    | false =>
      simp only [apply_whitelist, hpr, Bool.false_eq_true, if_false,
        anyWLMatches_of_parse rules (ename e) h]
      cases ha : wlAllowedB rules (ename e) with
      | true => simp [ih, List.filter_cons, hpr, ha]
      | false => simp [ih, List.filter_cons, hpr, ha]

theorem apply_whitelist_protected (rules : List String) (entries : List FsEntry)
    (e : FsEntry) (he : e ∈ entries) (hp : protectedEntry (ename e) = true) :
    e ∈ (apply_whitelist rules entries).1 := by
  induction entries with
  | nil => cases he
  | cons x xs ih =>
    have hmem := List.mem_cons.mp he
    cases hpr : protectedEntry (ename x) with
    | true =>
      rcases hmem with rfl | hxs
      · simp [apply_whitelist, hpr]
      · simp only [apply_whitelist, hpr, if_true]
        rcases hq : apply_whitelist rules xs with ⟨l, b⟩
        have := ih hxs
        rw [hq] at this
        simp only []
        exact List.mem_cons_of_mem x this
    | false =>
      have hx : e ∈ xs := by
        rcases hmem with rfl | hxs
        · rw [hp] at hpr; cases hpr
        · exact hxs
      simp only [apply_whitelist, hpr, Bool.false_eq_true, if_false]
      cases ha : anyWLMatches rules (ename x) with
      | error err => exact List.mem_cons_of_mem x hx
      | ok b =>
        cases b with
        | true =>
          rcases hq : apply_whitelist rules xs with ⟨l, bb⟩
          have := ih hx
          rw [hq] at this
          exact List.mem_cons_of_mem x this
        | false => exact ih hx

/-! runFiles lemmas -/

theorem runFiles_ok (t n : String) (rules : List String) (files : List WalkFile)
    (h : ∀ wf ∈ files, writeStep t n rules wf ≠ Except.error ()) :
    runFiles t n rules files = (files.filterMap (includedEntry t n rules), false) := by
  induction files with
  | nil => simp [runFiles]
  | cons wf rest ih =>
    have hrest : ∀ g ∈ rest, writeStep t n rules g ≠ Except.error () :=
      fun g hg => h g (List.mem_cons_of_mem wf hg)
    cases hw : writeStep t n rules wf with
    | error e =>
      cases e
      exact absurd hw (h wf (List.mem_cons_self wf rest))
    | ok o =>
      cases o with
      | none =>
        simp [runFiles, hw, ih hrest, List.filterMap_cons, includedEntry]
      | some s =>
        simp [runFiles, hw, ih hrest, List.filterMap_cons, includedEntry]

theorem runFiles_err (t n : String) (rules : List String) (files : List WalkFile)
    (w : List String) (h : runFiles t n rules files = (w, true)) :
    ∃ pre wf post, files = pre ++ wf :: post ∧ writeStep t n rules wf = Except.error () ∧
      (∀ g ∈ pre, writeStep t n rules g ≠ Except.error ()) ∧
      w = pre.filterMap (includedEntry t n rules) := by
  induction files generalizing w with
  | nil => simp [runFiles] at h
  | cons wf rest ih =>
    cases hw : writeStep t n rules wf with
    | error e =>
      cases e
      refine ⟨[], wf, rest, rfl, hw, by simp, ?_⟩
      simp [runFiles, hw] at h
      simpa using h
    | ok o =>
      cases o with
      | none =>
        have h' : runFiles t n rules rest = (w, true) := by
          simpa [runFiles, hw] using h
        obtain ⟨pre, g, post, hfl, hg, hpre, hww⟩ := ih w h'
        refine ⟨wf :: pre, g, post, by simp [hfl], hg, ?_, ?_⟩
        · intro g' hg'
          rcases List.mem_cons.mp hg' with rfl | hmem
          · simp [hw]
          · exact hpre g' hmem
        · simp [List.filterMap_cons, includedEntry, hw, hww]
      | some s =>
        rcases hq : runFiles t n rules rest with ⟨l, b⟩
        have hstep : runFiles t n rules (wf :: rest) = (s :: l, b) := by
          simp [runFiles, hw, hq]
        rw [hstep] at h
        have hb : b = true := (Prod.mk.injEq _ _ _ _ ▸ h).2
        have hwl : w = s :: l := ((Prod.mk.injEq _ _ _ _ ▸ h).1).symm
        obtain ⟨pre, g, post, hfl, hg, hpre, hww⟩ := ih l (by rw [hq, hb])
        refine ⟨wf :: pre, g, post, by simp [hfl], hg, ?_, ?_⟩
        · intro g' hg'
          rcases List.mem_cons.mp hg' with rfl | hmem
          · simp [hw]
          · exact hpre g' hmem
        · simp [hwl, List.filterMap_cons, includedEntry, hw, hww]

theorem writeStep_no_error (t n : String) (rules : List String) (wf : WalkFile)
    (h : ∀ p ∈ rules, (parseRE (pyStrip p)).isSome) (hr : wf.readable = true) :
    writeStep t n rules wf ≠ Except.error () := by
  by_cases hn : wf.file = n
  · simp [writeStep, hn]
  · by_cases ht : t = "LOCAL_ZIP"
    · cases hg : containsSub (pyNormSlash wf.relPath) ".git" with
      | true => simp [writeStep, hn, ht, backupFileFilter, hg]
      | false =>
        have := anyRuleMatches_of_parse rules (pyNormSlash wf.relPath) wf.file h
        cases hb : rules.any (fun p => ruleMatchB p (pyNormSlash wf.relPath) wf.file) with
        | true => simp [writeStep, hn, ht, backupFileFilter, hg, this, hb, hr]
        | false => simp [writeStep, hn, ht, backupFileFilter, hg, this, hb]
    · simp [writeStep, hn, ht, hr]

/-! ## Claim C1 — archive whitelist filter semantics -/

/-- C1 counterexample: the claim's "true iff at least one rule matches"
fails as stated.  The relative path `.gitignore` matches the rule
`.gitignore` (present in the script's default whitelist) under the claim's
rule semantics, yet the filter returns false, because the filter first
drops every path containing `".git"` as a substring. -/
theorem c1_counterexample :
    backupFileFilter [".gitignore"] ".gitignore" ".gitignore" = Except.ok false ∧
    ruleMatchB ".gitignore" ".gitignore" ".gitignore" = true := by decide

/-- C1 (amended): for every relative path whose forward-slash normalization
does not contain `".git"` as a substring, and every rule list whose
stripped rules parse as regexes, the whitelist filter returns true iff at
least one rule matches — a rule matching iff it ends with `/` and the
normalized path starts with it, or the rule as a regex matches the bare
filename; and the scenario rule set `["Plugin/", "manifest.xml",
".*\\.md$"]` on the tree `{Plugin/a.dll, manifest.xml, notes.md,
secret.key}` yields an archive holding exactly
`{Plugin/a.dll, manifest.xml, notes.md}`. -/
theorem c1_amended :
    (∀ (rules : List String) (relPath file : String),
      containsSub (pyNormSlash relPath) ".git" = false →
      (∀ p ∈ rules, (parseRE (pyStrip p)).isSome) →
      (backupFileFilter rules relPath file = Except.ok true ↔
        ∃ p ∈ rules, ruleMatchB p (pyNormSlash relPath) file = true)) ∧
    (create_backup "LOCAL_ZIP" "z.zip" ["Plugin/", "manifest.xml", ".*\\.md$"]
        [⟨"manifest.xml", "manifest.xml", true⟩, ⟨"notes.md", "notes.md", true⟩,
         ⟨"secret.key", "secret.key", true⟩, ⟨"a.dll", "Plugin/a.dll", true⟩]).written
      = ["manifest.xml", "notes.md", "Plugin/a.dll"] := by
  constructor
  · intro rules relPath file hg hp
    rw [backupFileFilter_of_parse rules relPath file hg hp]
    constructor
    · intro h
      have hany : (rules.any fun p => ruleMatchB p (pyNormSlash relPath) file) = true := by
        simpa using h
      simpa using List.any_eq_true.mp hany
    · rintro ⟨p, hpm, hmatch⟩
      have : (rules.any fun p => ruleMatchB p (pyNormSlash relPath) file) = true :=
        List.any_eq_true.mpr ⟨p, hpm, hmatch⟩
      rw [this]
  · decide

/-- C1 witness: the amended equivalence instantiated on `Plugin/a.dll`
with rules `["Plugin/", "manifest.xml"]`, hypotheses discharged by
computation. -/
theorem c1_witness :
    containsSub (pyNormSlash "Plugin/a.dll") ".git" = false ∧
    (∀ p ∈ ["Plugin/", "manifest.xml"], (parseRE (pyStrip p)).isSome) ∧
    (backupFileFilter ["Plugin/", "manifest.xml"] "Plugin/a.dll" "a.dll" = Except.ok true ↔
      ∃ p ∈ ["Plugin/", "manifest.xml"], ruleMatchB p (pyNormSlash "Plugin/a.dll") "a.dll" = true) :=
  ⟨by decide, by decide,
   c1_amended.1 ["Plugin/", "manifest.xml"] "Plugin/a.dll" "a.dll" (by decide) (by decide)⟩

/-! ## Claim C2 — unconditional rejection of version-control metadata -/

/-- C2 code-bug evaluation: the claim (and the code's own default
whitelist, which lists `.gitignore`) require that only paths with a `.git`
directory component are unconditionally rejected, but the code tests
`'.git' in match_path` — a substring test.  `.gitignore` has no `.git`
component, matches its own rule, and is still excluded; a path with a real
`.git` component is excluded as the claim says; and `docs/.github/w.yml`
shows a further over-rejection on a path with no `.git` component. -/
theorem c2_code_eval :
    hasDotGitSegment ".gitignore" = false ∧
    ruleMatchB ".gitignore" ".gitignore" ".gitignore" = true ∧
    backupFileFilter [".gitignore"] ".gitignore" ".gitignore" = Except.ok false ∧
    hasDotGitSegment "Plugin\\.git\\config" = true ∧
    backupFileFilter [".*"] "Plugin\\.git\\config" "config" = Except.ok false ∧
    hasDotGitSegment "docs/.github/w.yml" = false ∧
    backupFileFilter [".*"] "docs/.github/w.yml" "w.yml" = Except.ok false := by decide

/-! ## Claim C3 — changelog idempotence per version -/

/-- C3 counterexample: on a document containing the title block
`"# Changelog\n\n"` twice, a single call already inserts the section twice
(Python's `str.replace` replaces every occurrence), so the final document
has two sections for the version even though the second call is a no-op —
refuting the claim's "at most one section for that version". -/
theorem c3_counterexample :
    generate_changelog "1.0.0" "2026-10-12" "- x"
        (some (generate_changelog "1.0.0" "2026-10-12" "- x"
          (some "# Changelog\n\nA\n# Changelog\n\n")))
      = generate_changelog "1.0.0" "2026-10-12" "- x" (some "# Changelog\n\nA\n# Changelog\n\n") ∧
    countOcc (generate_changelog "1.0.0" "2026-10-12" "- x"
        (some "# Changelog\n\nA\n# Changelog\n\n")) "## [1.0.0]" = 2 := by
  constructor
  · decide
  · decide

/-- C3 (amended): if the section header for the version already occurs in
the document nothing is inserted; a second call with the same version
(whatever its date or commit list) always returns the document of the
first call unchanged; and on a document consisting of one leading title
block followed by content that repeats neither the title block nor the
version header, two calls produce exactly one new section, inserted right
after the title block. -/
theorem c3_amended :
    (∀ v d c doc, containsSub doc (clHeader v) = true →
        generate_changelog v d c (some doc) = doc) ∧
    (∀ v d c d' c' doc, generate_changelog v d' c' (some (generate_changelog v d c doc))
        = generate_changelog v d c doc) ∧
    (∀ v d c d' c' rest, containsSub rest titleBlock = false →
        containsSub (sAppend titleBlock rest) (clHeader v) = false →
        generate_changelog v d' c' (some (generate_changelog v d c (some (sAppend titleBlock rest))))
          = sAppend titleBlock (sAppend (clEntry v d c) rest)) := by
  refine ⟨gc_present, generate_changelog_idem, ?_⟩
  intro v d c d' c' rest h1 h2
  rw [generate_changelog_idem, gc_insert v d c rest h1 h2]

/-- C3 witness: the no-insertion case and the canonical two-call case, both
at concrete documents with the hypotheses discharged by computation. -/
theorem c3_witness :
    containsSub "## [1.0.0] - old\n" (clHeader "1.0.0") = true ∧
    generate_changelog "1.0.0" "2026-01-01" "- y" (some "## [1.0.0] - old\n") = "## [1.0.0] - old\n" ∧
    containsSub "## [0.9]\n- old\n\n" titleBlock = false ∧
    containsSub (sAppend titleBlock "## [0.9]\n- old\n\n") (clHeader "1.0.0") = false ∧
    generate_changelog "1.0.0" "2026-01-01" "- y"
        (some (generate_changelog "1.0.0" "2026-01-01" "- y"
          (some (sAppend titleBlock "## [0.9]\n- old\n\n"))))
      = sAppend titleBlock (sAppend (clEntry "1.0.0" "2026-01-01" "- y") "## [0.9]\n- old\n\n") :=
  ⟨by decide, c3_amended.1 "1.0.0" "2026-01-01" "- y" "## [1.0.0] - old\n" (by decide),
   by decide, by decide,
   c3_amended.2.2 "1.0.0" "2026-01-01" "- y" "2026-01-01" "- y" "## [0.9]\n- old\n\n"
     (by decide) (by decide)⟩

/-! ## Claim C4 — version resolution priority -/

/-- C4 counterexample: a manifest whose `Version` node exists but holds
only whitespace yields the stripped value `""`; the claim says the parsed
field value is returned regardless of the stored default, but the code's
falsiness test makes it return the stored default instead. -/
theorem c4_counterexample :
    get_project_version (some " ") "1.0.0" = ("1.0.0", "1.0.0") ∧
    pyStrip " " = "" ∧
    ("1.0.0" : String) ≠ "" := by decide

/-- C4 (amended): version resolution (non-interactive) returns the
manifest's stripped `Version` text whenever that is nonempty, regardless
of the stored default; on parse failure, absence of the field, or an
empty/whitespace value it silently returns the stored default; and in
every case the returned value is also the value persisted as the new
stored default. -/
theorem c4_amended :
    ∀ (m : Option String) (dflt : String),
      (∀ t, m = some t → pyStrip t ≠ "" → get_project_version m dflt = (pyStrip t, pyStrip t)) ∧
      ((m = none ∨ ∃ t, m = some t ∧ pyStrip t = "") → get_project_version m dflt = (dflt, dflt)) ∧
      (get_project_version m dflt).2 = (get_project_version m dflt).1 := by
  intro m dflt
  refine ⟨?_, ?_, ?_⟩
  · intro t ht hne
    subst ht
    simp [get_project_version, hne]
  · rintro (rfl | ⟨t, rfl, he⟩)
    · simp [get_project_version]
    · simp [get_project_version, he]
  · cases m with
    | none => simp [get_project_version]
    | some t =>
      by_cases he : pyStrip t = "" <;> simp [get_project_version, he]

/-- C4 witness: a manifest value ` 2.3.1 ` beats the stored default
`1.0.0`, via the amended theorem with its hypotheses discharged. -/
theorem c4_witness :
    pyStrip " 2.3.1 " ≠ "" ∧
    get_project_version (some " 2.3.1 ") "1.0.0" = ("2.3.1", "2.3.1") :=
  ⟨by decide, (c4_amended (some " 2.3.1 ") "1.0.0").1 " 2.3.1 " rfl (by decide)⟩

/-! ## Claim C5 — update mode always commits (allow-empty) and pushes -/

/-- C5: in release-update mode the gated command trace of the orchestrator
contains, consecutively and unconditionally — for every version, every
branch/remote configuration and every outcome of the two dirty-tree probes
(in particular when the overlay produces zero diff, on which the trace
never branches) — the overlay of the temporary branch onto the release
branch followed by `git add -A`, the `--allow-empty` commit, and the
(non-force) push. -/
theorem c5_update_commit_push
    (version devBranch relBranch relRemote devRemote manifestPath changelogPath readmePath : String)
    (currOnRelease metaDirty backDirty : Bool) :
    ∃ pre post,
      handle_master_sync version devBranch relBranch relRemote devRemote manifestPath
          changelogPath readmePath false currOnRelease metaDirty backDirty
        = pre ++ update_push_seq version relRemote relBranch ++ post := by
  refine ⟨(if currOnRelease then ["git checkout " ++ devBranch] else [])
      ++ ["git add " ++ changelogPath ++ " " ++ readmePath]
      ++ (if metaDirty then ["git commit -m \"v" ++ version ++ " | Metadata update\""] else [])
      ++ ["git checkout --orphan temp_release_work " ++ devBranch]
      ++ ["git add -A"]
      ++ ["git commit -m \"Release v" ++ version ++ "\" --allow-empty"],
    ["git tag -a v" ++ version ++ " -m \"v" ++ version ++ "\""]
      ++ ["git push " ++ relRemote ++ " v" ++ version]
      ++ ["git checkout " ++ devBranch ++ " -f"]
      ++ ["git checkout v" ++ version ++ " -- " ++ manifestPath ++ " " ++ changelogPath ++ " " ++ readmePath]
      ++ (if backDirty then
            ["git commit -m \"v" ++ version ++ " | Sync metadata back from release\"",
             "git push " ++ devRemote ++ " " ++ devBranch]
          else []), ?_⟩
  simp [handle_master_sync, List.append_assoc]

/-! ## Claim C6 — malformed whitelist regex handling -/

/-- C6 counterexample: with rules `["a.txt", "("]` (the second malformed),
the archive run writes `a.txt` before the malformed rule is ever compiled
— filtering has begun, refuting "before any filtering begins" — and the
error is caught as a logged archive failure with exit code 0, not a fatal
configuration error. -/
theorem c6_counterexample :
    create_backup "LOCAL_ZIP" "z.zip" ["a.txt", "("]
        [⟨"a.txt", "a.txt", true⟩, ⟨"b.txt", "b.txt", true⟩]
      = { written := ["a.txt"], failed := true, leftover := some ["a.txt"] } ∧
    parseRE "(" = none ∧
    (backup_cli "LOCAL_ZIP" "z.zip" ["a.txt", "("]
        [⟨"a.txt", "a.txt", true⟩, ⟨"b.txt", "b.txt", true⟩]).2 = 0 := by decide

/-- C6 (amended): there is no pre-flight rule validation — a malformed
regex surfaces only when the per-file rule scan first reaches it, is
caught by the archive handler and logged (non-fatal); when every stripped
rule parses and every file is readable the filtered archive run never
fails; and any failing run failed at a specific file, with all files
before it already processed (and the matched ones written). -/
theorem c6_amended :
    ∀ (rules : List String) (name : String) (files : List WalkFile),
      ((∀ p ∈ rules, (parseRE (pyStrip p)).isSome) → (∀ wf ∈ files, wf.readable = true) →
        (create_backup "LOCAL_ZIP" name rules files).failed = false) ∧
      ((create_backup "LOCAL_ZIP" name rules files).failed = true →
        ∃ pre wf post, files = pre ++ wf :: post ∧
          writeStep "LOCAL_ZIP" name rules wf = Except.error () ∧
          (∀ g ∈ pre, writeStep "LOCAL_ZIP" name rules g ≠ Except.error ()) ∧
          (create_backup "LOCAL_ZIP" name rules files).written
            = pre.filterMap (includedEntry "LOCAL_ZIP" name rules)) := by
  intro rules name files
  constructor
  · intro hp hr
    have hok := runFiles_ok "LOCAL_ZIP" name rules files
      (fun wf hwf => writeStep_no_error "LOCAL_ZIP" name rules wf hp (hr wf hwf))
    simp [create_backup, hok]
  · intro hfail
    rcases hq : runFiles "LOCAL_ZIP" name rules files with ⟨w, b⟩
    have hb : b = true := by
      have := hfail
      simp [create_backup, hq] at this
      exact this
    obtain ⟨pre, wf, post, h1, h2, h3, h4⟩ :=
      runFiles_err "LOCAL_ZIP" name rules files w (by rw [hq, hb])
    exact ⟨pre, wf, post, h1, h2, h3, by simp [create_backup, hq, h4]⟩

/-- C6 witness: a run with well-formed rules and readable files does not
fail, obtained from the amended theorem with both hypotheses discharged. -/
theorem c6_witness :
    (∀ p ∈ ["Plugin/", "manifest.xml"], (parseRE (pyStrip p)).isSome) ∧
    (∀ wf ∈ [(⟨"a.txt", "a.txt", true⟩ : WalkFile)], wf.readable = true) ∧
    (create_backup "LOCAL_ZIP" "z.zip" ["Plugin/", "manifest.xml"]
      [⟨"a.txt", "a.txt", true⟩]).failed = false :=
  ⟨by decide, by decide,
   (c6_amended ["Plugin/", "manifest.xml"] "z.zip" [⟨"a.txt", "a.txt", true⟩]).1
     (by decide) (by decide)⟩

/-! ## Claim C7 — changelog insertion point and document creation -/

/-- C7 counterexample: for an existing document whose leading title is not
the literal `"# Changelog\n\n"`, no insertion happens at all — the
document is left unchanged and contains no section for the new version,
refuting "inserted immediately following the document's leading title
block". -/
theorem c7_counterexample :
    generate_changelog "1.0.0" "2026-10-12" "- x" (some "# Notes\n") = "# Notes\n" ∧
    containsSub "# Notes\n" (clHeader "1.0.0") = false := by
  constructor
  · decide
  · decide

/-- C7 (amended): a missing document is created as the canonical title
block followed by the new entry; on a document that starts with the
literal title block (occurring only there, version not yet present) the
entry is inserted immediately after that leading title block, before all
existing entries; a document not containing the literal title block
anywhere is left unchanged — no insertion occurs. -/
theorem c7_amended :
    (∀ v d c, generate_changelog v d c none = sAppend titleBlock (clEntry v d c)) ∧
    (∀ v d c rest, containsSub rest titleBlock = false →
        containsSub (sAppend titleBlock rest) (clHeader v) = false →
        generate_changelog v d c (some (sAppend titleBlock rest))
          = sAppend titleBlock (sAppend (clEntry v d c) rest)) ∧
    (∀ v d c doc, containsSub doc titleBlock = false →
        generate_changelog v d c (some doc) = doc) :=
  ⟨gc_create, gc_insert, gc_no_title⟩

/-- C7 witness: the insertion case and the unchanged case at concrete
documents, hypotheses discharged by computation. -/
theorem c7_witness :
    containsSub "old\n" titleBlock = false ∧
    containsSub (sAppend titleBlock "old\n") (clHeader "2.0.0") = false ∧
    generate_changelog "2.0.0" "2026-02-02" "- z" (some (sAppend titleBlock "old\n"))
      = sAppend titleBlock (sAppend (clEntry "2.0.0" "2026-02-02" "- z") "old\n") ∧
    containsSub "# Other\n" titleBlock = false ∧
    generate_changelog "2.0.0" "2026-02-02" "- z" (some "# Other\n") = "# Other\n" :=
  ⟨by decide, by decide,
   c7_amended.2.1 "2.0.0" "2026-02-02" "- z" "old\n" (by decide) (by decide),
   by decide,
   c7_amended.2.2 "2.0.0" "2026-02-02" "- z" "# Other\n" (by decide)⟩

/-! ## Claim C8 — archive failure: non-fatal but no cleanup -/

/-- C8 counterexample: an unreadable file aborts the archive and the run
exits 0 as claimed, but the destination keeps a finalized zip holding the
entries written so far (`a.txt`) — the claimed best-effort cleanup of the
destination file does not exist. -/
theorem c8_counterexample :
    create_backup "FULL_BACKUP" "z.zip" []
        [⟨"a.txt", "a.txt", true⟩, ⟨"b.txt", "b.txt", false⟩]
      = { written := ["a.txt"], failed := true, leftover := some ["a.txt"] } ∧
    (create_backup "FULL_BACKUP" "z.zip" []
        [⟨"a.txt", "a.txt", true⟩, ⟨"b.txt", "b.txt", false⟩]).leftover ≠ none ∧
    (backup_cli "FULL_BACKUP" "z.zip" []
        [⟨"a.txt", "a.txt", true⟩, ⟨"b.txt", "b.txt", false⟩]).2 = 0 := by decide

/-- C8 (amended): a failure during archive creation aborts the remaining
entries and is reported but not fatal (the dispatch exits 0); the
destination path always holds exactly the entries written before the stop
— the partial archive is never cleaned up; an error-free run archives
every included file; any failing run stopped at a specific file, keeping
the entries written before it in the leftover archive. -/
theorem c8_amended :
    ∀ (typeLabel name : String) (rules : List String) (files : List WalkFile),
      (create_backup typeLabel name rules files).leftover
          = some (create_backup typeLabel name rules files).written ∧
      (backup_cli typeLabel name rules files).2 = 0 ∧
      ((∀ wf ∈ files, writeStep typeLabel name rules wf ≠ Except.error ()) →
        create_backup typeLabel name rules files
          = { written := files.filterMap (includedEntry typeLabel name rules), failed := false,
              leftover := some (files.filterMap (includedEntry typeLabel name rules)) }) ∧
      ((create_backup typeLabel name rules files).failed = true →
        ∃ pre wf post, files = pre ++ wf :: post ∧
          writeStep typeLabel name rules wf = Except.error () ∧
          (create_backup typeLabel name rules files).written
            = pre.filterMap (includedEntry typeLabel name rules)) := by
  intro t n rules files
  refine ⟨?_, rfl, ?_, ?_⟩
  · rcases hq : runFiles t n rules files with ⟨w, b⟩
    simp [create_backup, hq]
  · intro h
    have hok := runFiles_ok t n rules files h
    simp [create_backup, hok]
  · intro hfail
    rcases hq : runFiles t n rules files with ⟨w, b⟩
    have hb : b = true := by
      have := hfail
      simp [create_backup, hq] at this
      exact this
    obtain ⟨pre, wf, post, h1, h2, _h3, h4⟩ :=
      runFiles_err t n rules files w (by rw [hq, hb])
    exact ⟨pre, wf, post, h1, h2, by simp [create_backup, hq, h4]⟩

/-- C8 witness: the error-free characterization applied to a one-file walk,
hypothesis discharged by computation. -/
theorem c8_witness :
    (∀ wf ∈ [(⟨"a.txt", "a.txt", true⟩ : WalkFile)],
        writeStep "FULL_BACKUP" "z.zip" [] wf ≠ Except.error ()) ∧
    create_backup "FULL_BACKUP" "z.zip" [] [⟨"a.txt", "a.txt", true⟩]
      = { written := [(⟨"a.txt", "a.txt", true⟩ : WalkFile)].filterMap
            (includedEntry "FULL_BACKUP" "z.zip" []), failed := false,
          leftover := some ([(⟨"a.txt", "a.txt", true⟩ : WalkFile)].filterMap
            (includedEntry "FULL_BACKUP" "z.zip" [])) } :=
  ⟨by decide, (c8_amended "FULL_BACKUP" "z.zip" [] [⟨"a.txt", "a.txt", true⟩]).2.2.1 (by decide)⟩

/-! ## Claim C9 — frame property of the destructive whitelist -/

/-- C9: the in-place whitelist application never deletes `.git`, `sync.py`
or `config_sync.ini` — they survive for every rule set, including ones
whose regexes are malformed — and, whenever every rule parses, the
surviving working tree is exactly the original entries minus those that
are neither protected nor matched by any rule (all kept entries
unchanged, in order). -/
theorem c9_frame :
    ∀ (rules : List String) (entries : List FsEntry),
      (∀ e ∈ entries, protectedEntry (ename e) = true → e ∈ (apply_whitelist rules entries).1) ∧
      ((∀ p ∈ rules, (parseRE p).isSome) →
        apply_whitelist rules entries
          = (entries.filter (fun e => protectedEntry (ename e) || wlAllowedB rules (ename e)), false)) :=
  fun rules entries =>
    ⟨fun e he hp => apply_whitelist_protected rules entries e he hp,
     fun h => apply_whitelist_of_parse rules entries h⟩

/-- C9 witness: both parts instantiated on a concrete working tree with a
`.git` directory, hypotheses discharged by computation. -/
theorem c9_witness :
    ((FsEntry.dir ".git" ["objects"]) ∈
        [FsEntry.dir ".git" ["objects"], FsEntry.file "sync.py", FsEntry.file "secret.key"]) ∧
    protectedEntry (ename (FsEntry.dir ".git" ["objects"])) = true ∧
    (∀ p ∈ ["Plugin/"], (parseRE p).isSome) ∧
    ((FsEntry.dir ".git" ["objects"]) ∈
      (apply_whitelist ["Plugin/"]
        [FsEntry.dir ".git" ["objects"], FsEntry.file "sync.py", FsEntry.file "secret.key"]).1) ∧
    apply_whitelist ["Plugin/"]
        [FsEntry.dir ".git" ["objects"], FsEntry.file "sync.py", FsEntry.file "secret.key"]
      = ([FsEntry.dir ".git" ["objects"], FsEntry.file "sync.py", FsEntry.file "secret.key"].filter
          (fun e => protectedEntry (ename e) || wlAllowedB ["Plugin/"] (ename e)), false) :=
  ⟨by decide, by decide, by decide,
   (c9_frame ["Plugin/"] _).1 _ (by decide) (by decide),
   (c9_frame ["Plugin/"] _).2 (by decide)⟩

/-! ## Claim C10 — top-level retention semantics -/

/-- C10 counterexample: the claim says a directory rule (ending in `/`)
retains an entry iff the name equals the rule minus its trailing slash.
The rule `a|b/` ends in `/`, the entry name `a` differs from `a|b`, yet
the entry is retained — the regex interpretation of the rule also applies
to directory rules. -/
theorem c10_counterexample :
    apply_whitelist ["a|b/"] [FsEntry.dir "a" ["x"]] = ([FsEntry.dir "a" ["x"]], false) ∧
    endsWithSlash "a|b/" = true ∧
    ("a" : String) ≠ dropLastStr "a|b/" ∧
    reMatchB "a|b/" "a" = true := by decide

/-- C10 (amended): when every rule parses, the destructive whitelist
examines only top-level entries and retains an entry iff it is protected
or some rule matches it — where a rule ending in `/` matches by exact
equality of the name with the rule minus its slash, or by its regex
interpretation (the `or` the code actually takes) — the loop never raises,
and every survivor is one of the original entries unchanged (so the
contents of a retained directory are never individually filtered). -/
theorem c10_amended :
    ∀ (rules : List String) (entries : List FsEntry),
      (∀ p ∈ rules, (parseRE p).isSome) →
      ((apply_whitelist rules entries).2 = false ∧
       (∀ e ∈ (apply_whitelist rules entries).1, e ∈ entries) ∧
       (∀ e ∈ entries, (e ∈ (apply_whitelist rules entries).1 ↔
          protectedEntry (ename e) = true ∨
          ∃ p ∈ rules, (endsWithSlash p = true ∧ ename e = dropLastStr p) ∨
            reMatchB p (ename e) = true))) := by
  intro rules entries h
  have heq := apply_whitelist_of_parse rules entries h
  refine ⟨by rw [heq], ?_, ?_⟩
  · intro e he
    rw [heq] at he
    exact (List.mem_filter.mp he).1
  · intro e he
    rw [heq]
    simp only [List.mem_filter, he, true_and, Bool.or_eq_true, wlAllowedB,
      List.any_eq_true, Bool.and_eq_true, beq_iff_eq]

/-- C10 witness: the amended theorem instantiated on a concrete rule set
and working tree, hypothesis discharged by computation. -/
theorem c10_witness :
    (∀ p ∈ ["Plugin/", ".*\\.md$"], (parseRE p).isSome) ∧
    (apply_whitelist ["Plugin/", ".*\\.md$"]
      [FsEntry.dir "Plugin" ["a.dll"], FsEntry.file "x.bin"]).2 = false :=
  ⟨by decide, (c10_amended ["Plugin/", ".*\\.md$"]
      [FsEntry.dir "Plugin" ["a.dll"], FsEntry.file "x.bin"] (by decide)).1⟩
